import Mathlib

set_option maxHeartbeats 2000000
set_option maxRecDepth 8000

/-!
Shallow embedding of the record-processing engine of `scrape_rates.py`
(Wattwise repository): field normalization, validation filter, pricing
model, fine-print scanner, transparency scorer and record assembler.

Numeric rate fields are modelled with rationals; every Python float
literal the claims touch is an exact decimal and every arithmetic step
involved is exact at two decimal places, so the rational model agrees
with the IEEE-double computation of the source on all inputs appearing
in the claims.  Python regular-expression scans (`re.findall`) are
embedded as explicit backtracking matchers, one per pattern of the
source, with the standard leftmost / greedy semantics.
-/

/-- Python ASCII whitespace, the character set of str.strip and of the
regex class used by the source patterns. -/
def isPySpace (c : Char) : Bool :=
  c == ' ' || c == '\t' || c == '\n' || c == '\r' || c == '\x0b' || c == '\x0c'

/-- Decimal digit test (regex class of the source patterns). -/
def isDigitCh (c : Char) : Bool := '0' ≤ c && c ≤ '9'

/-- Drop the longest suffix of characters satisfying p. -/
def dropEnd (p : Char → Bool) (l : List Char) : List Char :=
  (l.reverse.dropWhile p).reverse

/-- Python str.strip(): remove leading and trailing whitespace. -/
def pstrip (l : List Char) : List Char := dropEnd isPySpace (l.dropWhile isPySpace)

def pstripS (s : String) : String := String.mk (pstrip s.toList)

/-- Python str.lower() on one ASCII character. -/
def lowCh (c : Char) : Char :=
  if 'A' ≤ c && c ≤ 'Z' then Char.ofNat (c.toNat + 32) else c

/-- Python str.upper() on one ASCII character. -/
def upCh (c : Char) : Char :=
  if 'a' ≤ c && c ≤ 'z' then Char.ofNat (c.toNat - 32) else c

def lowerS (s : String) : String := String.mk (s.toList.map lowCh)

def upperS (s : String) : String := String.mk (s.toList.map upCh)

/-- Value of a decimal digit string. -/
def digitsToNat (ds : List Char) : Nat := ds.foldl (fun a c => a * 10 + (c.toNat - 48)) 0

/-- Exact rational numbers in canonical form (lowest terms, positive
denominator).  The arithmetic is structurally recursive so that every
pipeline computation evaluates inside the kernel; the source performs
these computations on Python floats, which agree with exact rational
arithmetic on every decimal input and every operation the claims
exercise. -/
structure Q where
  num : Int
  den : Nat
deriving DecidableEq, Inhabited

/-- Fuelled Euclidean gcd; the first numeric argument strictly
decreases, so its own value plus one is enough fuel. -/
def gcdF : Nat → Nat → Nat → Nat
  | 0, _, b => b
  | fuel + 1, a, b => if a = 0 then b else gcdF fuel (b % a) a

def ngcd (a b : Nat) : Nat := gcdF (a + 1) a b

/-- Canonical constructor: reduce to lowest terms.  A zero denominator,
which no pipeline computation produces, is mapped to 0. -/
def mkQ (n : Int) (d : Nat) : Q :=
  if d = 0 then ⟨0, 1⟩
  else
    let g := ngcd n.natAbs d
    ⟨n / (g : Int), d / g⟩

instance (n : Nat) : OfNat Q n := ⟨⟨Int.ofNat n, 1⟩⟩

def Q.add (a b : Q) : Q := mkQ (a.num * (b.den : Int) + b.num * (a.den : Int)) (a.den * b.den)

def Q.mul (a b : Q) : Q := mkQ (a.num * b.num) (a.den * b.den)

def Q.neg (a : Q) : Q := ⟨-a.num, a.den⟩

def Q.sub (a b : Q) : Q := Q.add a (Q.neg b)

instance : Add Q := ⟨Q.add⟩

instance : Mul Q := ⟨Q.mul⟩

instance : Neg Q := ⟨Q.neg⟩

instance : Sub Q := ⟨Q.sub⟩

/-- Order by cross multiplication (denominators are positive). -/
def Q.le (a b : Q) : Prop := a.num * (b.den : Int) ≤ b.num * (a.den : Int)

def Q.lt (a b : Q) : Prop := a.num * (b.den : Int) < b.num * (a.den : Int)

instance : LE Q := ⟨Q.le⟩

instance : LT Q := ⟨Q.lt⟩

instance (a b : Q) : Decidable (a ≤ b) :=
  inferInstanceAs (Decidable (a.num * (b.den : Int) ≤ b.num * (a.den : Int)))

instance (a b : Q) : Decidable (a < b) :=
  inferInstanceAs (Decidable (a.num * (b.den : Int) < b.num * (a.den : Int)))

instance : Max Q := ⟨fun a b => if a ≤ b then b else a⟩

instance : Min Q := ⟨fun a b => if a ≤ b then a else b⟩

/-- Floor of a rational (denominators are positive, Euclidean division
of the numerator is the floor). -/
def Q.floor (a : Q) : Int := Int.ediv a.num (a.den : Int)

def intQ (i : Int) : Q := ⟨i, 1⟩

/-- Power of ten with integer exponent (canonical by construction). -/
def qpow10 (e : Int) : Q :=
  match e with
  | Int.ofNat n => ⟨(10 : Int) ^ n, 1⟩
  | Int.negSucc n => ⟨1, 10 ^ (n + 1)⟩

/-- Decimal digit rendering of a Nat, structurally recursive. -/
def natStrAux : Nat → Nat → List Char
  | 0, _ => []
  | fuel + 1, n => if n = 0 then [] else natStrAux fuel (n / 10) ++ [Char.ofNat (48 + n % 10)]

def natStr (n : Nat) : String := if n = 0 then "0" else String.mk (natStrAux (n + 1) n)

def intStr (i : Int) : String :=
  match i with
  | Int.ofNat n => natStr n
  | Int.negSucc n => "-" ++ natStr (n + 1)

/-- Rendering of a rational used for the dedup key: equal canonical
rationals render equally, mirroring the float interpolation of the
source key. -/
def qstr (q : Q) : String := intStr q.num ++ "/" ++ natStr q.den

/-- Optional leading sign of a float literal. -/
def parseSign (cs : List Char) : Q × List Char :=
  match cs with
  | [] => (1, [])
  | c :: r => if c == '+' then (1, r) else if c == '-' then (-1, r) else (1, c :: r)

/-- Optional leading sign of an exponent. -/
def parseExpSign (cs : List Char) : Int × List Char :=
  match cs with
  | [] => (1, [])
  | c :: r => if c == '+' then (1, r) else if c == '-' then (-1, r) else (1, c :: r)

/-- Exponent suffix of a float literal: either nothing at all, or
e / E followed by a signed digit string consuming the whole rest. -/
def parseExpPart (cs : List Char) : Option Int :=
  match cs with
  | [] => some 0
  | c :: r =>
    if c == 'e' || c == 'E' then
      let sr := parseExpSign r
      let ds := sr.2.takeWhile isDigitCh
      let rest := sr.2.dropWhile isDigitCh
      if ds.isEmpty || !rest.isEmpty then none
      else some (sr.1 * Int.ofNat (digitsToNat ds))
    else none

/-- Python float(): surrounding whitespace ignored, optional sign,
decimal digits with optional fraction and optional exponent; at least one
digit is required in the integer or fraction part.  (inf / nan and digit
group underscores, which no computation of the claims exercises, are not
modelled.) -/
def parseFloat? (s : String) : Option Q :=
  let cs := pstrip s.toList
  let sc := parseSign cs
  let ip := sc.2.takeWhile isDigitCh
  let r1 := sc.2.dropWhile isDigitCh
  let fpr : List Char × List Char :=
    match r1 with
    | [] => ([], [])
    | c :: rr =>
      if c == '.' then (rr.takeWhile isDigitCh, rr.dropWhile isDigitCh) else ([], c :: rr)
  if ip.isEmpty && fpr.1.isEmpty then none
  else
    match parseExpPart fpr.2 with
    | none => none
    | some e =>
      some (sc.1 * (intQ (Int.ofNat (digitsToNat ip)) +
              mkQ (Int.ofNat (digitsToNat fpr.1)) (10 ^ fpr.1.length)) * qpow10 e)

/-- Round to the nearest integer, ties to even (Python round). -/
def rhalfeven (q : Q) : Int :=
  let f := Q.floor q
  if q - intQ f < mkQ 1 2 then f
  else if mkQ 1 2 < q - intQ f then f + 1
  else if f % 2 = 0 then f else f + 1

/-- Python round(x, 2). -/
def round2 (q : Q) : Q := mkQ (rhalfeven (q * 100)) 100

/-- Characters deleted by parse_rate of the source. -/
def isRateJunk (c : Char) : Bool := c == '$' || c == '¢' || c == ','

/-- parse_rate of the source: reject empty, strip whitespace, delete
currency and thousands decoration, parse a float, multiply by 100 when
the value lies strictly between 0 and 1, round to 2 decimals; None on
parse failure. -/
def parse_rate (val : String) : Option Q :=
  if val = "" then none
  else
    match parseFloat? (String.mk ((pstrip val.toList).filter (fun c => !isRateJunk c))) with
    | none => none
    | some rate => some (round2 (if 0 < rate ∧ rate < 1 then rate * 100 else rate))

/-- parse_bool of the source: falsy input is false, otherwise strip,
lower-case, and test membership in the fixed truthy set. -/
def parse_bool (s : String) : Bool :=
  if s = "" then false
  else
    let w := String.mk ((pstrip s.toList).map lowCh)
    w == "true" || w == "1" || w == "yes" || w == "y" || w == "t"

/-- Match a literal character list at the head, returning the rest. -/
def eatLit : List Char → List Char → Option (List Char)
  | [], cs => some cs
  | _ :: _, [] => none
  | p :: ps, c :: cs => if p == c then eatLit ps cs else none

/-- Fuelled worker of removeAll. -/
def removeAllAux (pat : List Char) : Nat → List Char → List Char
  | 0, cs => cs
  | _ + 1, [] => []
  | fuel + 1, c :: cs =>
    match eatLit pat (c :: cs) with
    | some rest => removeAllAux pat fuel rest
    | none => c :: removeAllAux pat fuel cs

/-- Python str.replace(pat, empty string): delete every occurrence of
pat, scanning left to right without overlap. -/
def removeAll (pat : String) (l : List Char) : List Char := removeAllAux pat.toList l.length l

/-- Truncation toward zero (Python int() of a float). -/
def truncInt (q : Q) : Int := if q < 0 then -Q.floor (-q) else Q.floor q

/-- Term parsing of the source: strip, delete the substrings "months"
and "mo", strip again, parse as a float truncated to an integer;
12 on any failure. -/
def parse_term (raw : String) : Int :=
  match parseFloat? (String.mk (pstrip (removeAll ("mo") (removeAll ("months") (pstrip raw.toList))))) with
  | some q => truncInt q
  | none => 12

/-- Renewable-percent parsing of the source: strip, delete percent
signs, parse as a float truncated to an integer and clamped to [0,100];
0 on any failure. -/
def parse_renew (raw : String) : Int :=
  match parseFloat? (String.mk ((pstrip raw.toList).filter (fun c => c != '%'))) with
  | some q => max 0 (min 100 (truncInt q))
  | none => 0

/-- Cancellation-fee parsing of the source: strip, delete dollar signs
and commas, parse as a float; 0 on any failure. -/
def parse_cancel (raw : String) : Q :=
  match parseFloat? (String.mk ((pstrip raw.toList).filter (fun c => !(c == '$' || c == ',')))) with
  | some q => q
  | none => 0

/-- Is pat a contiguous substring (Python in operator)? -/
def isSubstr (pat : List Char) : List Char → Bool
  | [] => (eatLit pat []).isSome
  | c :: cs => (eatLit pat (c :: cs)).isSome || isSubstr pat cs

/-- TDU_MAP of the source, in its insertion order. -/
def TDU_MAP : List (String × String) :=
  [("oncor", "ONCOR"), ("oncor electric delivery", "ONCOR"),
   ("centerpoint", "CENTPT"), ("centerpoint energy", "CENTPT"), ("cnp", "CENTPT"),
   ("texas-new mexico power", "TNMP"), ("texas-new mexico", "TNMP"), ("tnmp", "TNMP"),
   ("aep texas central", "AEP_TCC"), ("aep central", "AEP_TCC"),
   ("aep texas north", "AEP_TNC"), ("aep north", "AEP_TNC"),
   ("lubbock power", "LPL"), ("lubbock power & light", "LPL")]

/-- normalize_tdu of the source: falsy input gives None; otherwise the
first TDU_MAP alias contained in the lowered, stripped label wins, and
with no alias hit the upper-cased stripped label capped at 20 characters
is returned. -/
def normalize_tdu (raw : String) : Option String :=
  if raw = "" then none
  else
    let low := (pstrip raw.toList).map lowCh
    match TDU_MAP.find? (fun kv => isSubstr kv.1.toList low) with
    | some kv => some kv.2
    | none => some (String.mk (((pstrip raw.toList).map upCh).take 20))

/-- REBATE_KEYWORDS of the source, in order. -/
def REBATE_KEYWORDS : List String :=
  ["credit", "rebate", "bill credit", "usage credit", "discount",
   "bonus", "gift", "reward", "cashback", "cash back",
   "free nights", "free weekends", "free electricity",
   "minimum usage", "usage fee", "base charge",
   "surcharge", "pass-through", "pass through",
   "tdsp", "tdu charge"]

/-- Suffixes left after consuming 0..max characters of class p at the
head, longest consumption first (the order a greedy regex class star
tries its backtracking alternatives in). -/
def splitsOf (p : Char → Bool) : List Char → List (List Char)
  | [] => [[]]
  | c :: cs => if p c then splitsOf p cs ++ [c :: cs] else [c :: cs]

/-- The keyword alternation of the rebate pattern, tried in source
order: credit / rebate / bonus / bill credit. -/
def rebateKeywordTail (cs : List Char) : Option (List Char) :=
  eatLit ("credit").toList cs <|> eatLit ("rebate").toList cs <|>
  eatLit ("bonus").toList cs <|> eatLit ("bill credit").toList cs

/-- Optional fraction .dd of an amount capture: the backtracking
alternatives, fraction taken first as the greedy optional group does.
Each entry pairs the captured extra characters with the rest. -/
def fracOpt (cs : List Char) : List (List Char × List Char) :=
  match cs with
  | '.' :: d1 :: d2 :: rest =>
    if isDigitCh d1 && isDigitCh d2 then ([ '.', d1, d2 ], rest) :: [([], cs)] else [([], cs)]
  | _ => [([], cs)]

/-- One anchored attempt of the source rebate pattern
dollar, digits, optional .dd, spaces, then a credit word.  Returns the
captured amount and the rest after the match.  The greedy digit run
needs no backtracking: no following token of the pattern can match a
digit. -/
def creditAt (cs : List Char) : Option (List Char × List Char) :=
  match cs with
  | '$' :: r0 =>
    let ds := r0.takeWhile isDigitCh
    let r1 := r0.dropWhile isDigitCh
    if ds.isEmpty then none
    else
      (fracOpt r1).findSome? (fun fr =>
        ((splitsOf isPySpace fr.2).findSome? rebateKeywordTail).map
          (fun rest => (ds ++ fr.1, rest)))
  | _ => none

/-- The leading phrase alternation of the minimum-usage pattern. -/
def minPhrase (cs : List Char) : Option (List Char) :=
  ((eatLit ("minimum").toList cs).bind
      (fun r => (splitsOf isPySpace r).findSome? (eatLit ("usage").toList))) <|>
  ((eatLit ("less").toList cs).bind
      (fun r => (splitsOf isPySpace r).findSome? (eatLit ("than").toList)))

/-- One anchored attempt of the source minimum-usage pattern:
minimum usage / less than, spaces, captured digits, spaces, kwh. -/
def minUsageAt (cs : List Char) : Option (List Char × List Char) :=
  (minPhrase cs).bind (fun r1 =>
    (splitsOf isPySpace r1).findSome? (fun r2 =>
      let ds := r2.takeWhile isDigitCh
      let r3 := r2.dropWhile isDigitCh
      if ds.isEmpty then none
      else
        ((splitsOf isPySpace r3).findSome? (eatLit ("kwh").toList)).map
          (fun rest => (ds, rest))))

/-- The leading phrase alternation of the base-charge pattern. -/
def basePhrase (cs : List Char) : Option (List Char) :=
  ((eatLit ("base").toList cs).bind
      (fun r => (splitsOf isPySpace r).findSome? (eatLit ("charge").toList))) <|>
  ((eatLit ("monthly").toList cs).bind
      (fun r => (splitsOf isPySpace r).findSome?
        (fun r2 => eatLit ("charge").toList r2 <|> eatLit ("fee").toList r2)))

/-- One anchored attempt of the source base-charge pattern: the phrase,
spaces, optional of-plus-spaces, optional dollar sign, captured amount. -/
def baseAt (cs : List Char) : Option (List Char × List Char) :=
  (basePhrase cs).bind (fun r1 =>
    (splitsOf isPySpace r1).findSome? (fun r2 =>
      let cands : List (List Char) :=
        match eatLit ("of").toList r2 with
        | some r => splitsOf isPySpace r ++ [r2]
        | none => [r2]
      cands.findSome? (fun r3 =>
        let r4cands : List (List Char) :=
          match r3 with
          | '$' :: rr => [rr, r3]
          | _ => [r3]
        r4cands.findSome? (fun r4 =>
          let ds := r4.takeWhile isDigitCh
          let r5 := r4.dropWhile isDigitCh
          if ds.isEmpty then none
          else
            match fracOpt r5 with
            | fr :: _ => some (ds ++ fr.1, fr.2)
            | [] => none))))

/-- One anchored attempt of the pass-through pattern: pass, any run of
whitespace or hyphens, through. -/
def passAt (cs : List Char) : Option (Unit × List Char) :=
  (eatLit ("pass").toList cs).bind (fun r =>
    (splitsOf (fun c => isPySpace c || c == '-') r).findSome? (fun r2 =>
      (eatLit ("through").toList r2).map (fun rest => ((), rest))))

/-- Fuelled re.findall driver: attempt the anchored matcher at every
position left to right, resuming after the end of each match. -/
def scanAux {β : Type} (f : List Char → Option (β × List Char)) : Nat → List Char → List β
  | 0, _ => []
  | _ + 1, [] => []
  | fuel + 1, c :: cs =>
    match f (c :: cs) with
    | some (b, rest) => b :: scanAux f fuel rest
    | none => scanAux f fuel cs

def scanAll {β : Type} (f : List Char → Option (β × List Char)) (cs : List Char) : List β :=
  scanAux f cs.length cs

/-- Structured fine-print signals (the dictionary detect_rebate_flags
of the source returns). -/
structure FinePrint where
  has_rebate : Bool
  rebate_amount : Option String
  has_base_charge : Bool
  base_charge_amount : Option String
  has_min_usage_fee : Bool
  min_usage_kwh : Option String
  has_pass_through : Bool
  fine_print_flags : List String
deriving DecidableEq, Inhabited

/-- detect_rebate_flags of the source: join the three free-text fields
with single spaces, lower-case, collect keyword hits, and run the four
pattern scans. -/
def detect_rebate_flags (fees_details special_terms promo_desc : String) : FinePrint :=
  let combined :=
    (fees_details ++ " " ++ special_terms ++ " " ++ promo_desc).toList.map lowCh
  let found := REBATE_KEYWORDS.filter (fun kw => isSubstr kw.toList combined)
  let credit_amounts := scanAll creditAt combined
  let base_charges := scanAll baseAt combined
  let min_usage := scanAll minUsageAt combined
  let pass_through := scanAll passAt combined
  { has_rebate := !credit_amounts.isEmpty,
    rebate_amount := credit_amounts.head?.map String.mk,
    has_base_charge := !base_charges.isEmpty,
    base_charge_amount := base_charges.head?.map String.mk,
    has_min_usage_fee := !min_usage.isEmpty,
    min_usage_kwh := min_usage.head?.map String.mk,
    has_pass_through := !pass_through.isEmpty,
    fine_print_flags := found }

/-- One input row after csv.DictReader and header-bracket stripping: a
finite map from column names to cell text.  Absent keys model dict.get
returning None. -/
def RawRecord : Type := List (String × String)

/-- Python row.get(k): the first binding of k, if any. -/
def getF (row : RawRecord) (k : String) : Option String :=
  (row.find? (fun kv => kv.1 == k)).map (fun kv => kv.2)

/-- A Python or-chain of row.get calls ending in a default: the first
present, non-empty value wins (None and the empty string are falsy). -/
def orGet (row : RawRecord) : List String → String → String
  | [], d => d
  | k :: ks, d =>
    match getF row k with
    | some v => if v = "" then orGet row ks d else v
    | none => orGet row ks d

def MIN_RATE : Q := 3
def MAX_RATE : Q := 50
def MIN_TERM : Int := 3
def GOTCHA_VARIANCE_THRESHOLD : Q := 3

def providerOf (row : RawRecord) : String :=
  pstripS (orGet row ["RepCompany", "Company", "Provider", "rep_company"] (""))

def planNameOf (row : RawRecord) : String :=
  pstripS (orGet row ["Product", "PlanName", "Plan Name", "plan_name"] (""))

def tduRawOf (row : RawRecord) : String :=
  orGet row ["TduCompanyName", "TDU", "tdu_company_name", "Utility"] ("")

def rate500Of (row : RawRecord) : Option Q :=
  parse_rate (orGet row ["kwh500", "Price500", "price_kwh500"] (""))

def rate1000Of (row : RawRecord) : Option Q :=
  parse_rate (orGet row ["kwh1000", "Price1000", "price_kwh1000", "Rate"] (""))

def rate2000Of (row : RawRecord) : Option Q :=
  parse_rate (orGet row ["kwh2000", "Price2000", "price_kwh2000"] (""))

def termOf (row : RawRecord) : Int :=
  parse_term (orGet row ["TermValue", "Term", "contract_term", "ContractTerm"] ("12"))

def renewOf (row : RawRecord) : Int :=
  parse_renew (orGet row ["Renewable", "RenewablePercent", "renewable_pct", "PercentRenewable"] ("0"))

def cancelOf (row : RawRecord) : Q :=
  parse_cancel (orGet row ["CancelFee", "EarlyTermFee", "cancel_fee", "CancellationFee"] ("0"))

def rateTypeOf (row : RawRecord) : String :=
  pstripS (orGet row ["RateType", "rate_type"] ("Fixed"))

def isPrepaidOf (row : RawRecord) : Bool :=
  parse_bool (orGet row ["PrePaid", "Prepaid", "prepaid"] (""))

def isTouOf (row : RawRecord) : Bool :=
  parse_bool (orGet row ["TimeOfUse", "TOU", "time_of_use"] (""))

def isFixedOf (row : RawRecord) : Bool :=
  parse_bool (orGet row ["Fixed", "fixed"] (""))

def isNewCustomerOf (row : RawRecord) : Bool :=
  parse_bool (orGet row ["NewCustomer", "new_customer", "New Customer"] (""))

def isPromotionOf (row : RawRecord) : Bool :=
  parse_bool (orGet row ["Promotion", "promotion"] (""))

def hasFeesCreditsOf (row : RawRecord) : Bool :=
  parse_bool (orGet row ["Fees/Credits", "Fees_Credits", "fees_credits"] (""))

/-- The boolean reading of the MinUsageFeesCredits column. -/
def minUsageFlagOf (row : RawRecord) : Bool :=
  parse_bool (orGet row ["MinUsageFeesCredits"] (""))

def feesDetailsRawOf (row : RawRecord) : String :=
  pstripS (orGet row ["MinUsageFeesCredits"] (""))

def specialTermsOf (row : RawRecord) : String :=
  pstripS (orGet row ["SpecialTerms", "special_terms"] (""))

def promoDescOf (row : RawRecord) : String :=
  pstripS (orGet row ["PromotionDesc", "promotion_desc", "PromotionDescription"] (""))

/-- fees_details of the source: the MinUsageFeesCredits text unless it
is just a boolean literal, falling back to special_terms when empty. -/
def feesDetailsOf (row : RawRecord) : String :=
  let r := feesDetailsRawOf row
  let fd := if upperS r = "TRUE" ∨ upperS r = "FALSE" ∨ r = "" then "" else r
  if fd = "" ∧ specialTermsOf row ≠ "" then specialTermsOf row else fd

def fineOf (row : RawRecord) : FinePrint :=
  detect_rebate_flags (feesDetailsOf row) (specialTermsOf row) (promoDescOf row)

def eflUrlOf (row : RawRecord) : String :=
  pstripS (orGet row ["FactsURL", "EflUrl", "efl_url", "FactsUrl"] (""))

def enrollUrlOf (row : RawRecord) : String :=
  pstripS (orGet row ["EnrollURL", "EnrollUrl", "enroll_url", "SignupURL", "GoToUrl"] (""))

def termsUrlOf (row : RawRecord) : String :=
  pstripS (orGet row ["TermsURL", "TermsUrl", "terms_url"] (""))

def websiteOf (row : RawRecord) : String :=
  pstripS (orGet row ["Website", "website"] (""))

def enrollPhoneOf (row : RawRecord) : String :=
  pstripS (orGet row ["EnrollPhone", "enroll_phone"] (""))

/-- Python x if x else fallback on an optional rate: None and 0.0 are
falsy and give the fallback. -/
def pickTier (r : Option Q) (fallback : Q) : Q :=
  match r with
  | some q => if q = 0 then fallback else q
  | none => fallback

/-- The list comprehension of the source keeping the truthy tier rates
(drops None and 0.0, keeps order). -/
def truthyRates (l : List (Option Q)) : List Q :=
  l.foldr (fun o acc =>
    match o with
    | some q => if q = 0 then acc else q :: acc
    | none => acc) []

def maxQ : List Q → Q
  | [] => 0
  | x :: xs => xs.foldl max x

def minQ : List Q → Q
  | [] => 0
  | x :: xs => xs.foldl min x

/-- The tier-rate list of one accepted record (rate_1000 already
validated, hence a plain value). -/
def tiersOf (row : RawRecord) (r : Q) : List Q :=
  truthyRates [rate500Of row, some r, rate2000Of row]

/-- rate_spread of one accepted record. -/
def spreadOfRow (row : RawRecord) (r : Q) : Q :=
  if 2 ≤ (tiersOf row r).length then round2 (maxQ (tiersOf row r) - minQ (tiersOf row r)) else 0

def gotchaOf (row : RawRecord) (r : Q) : Bool :=
  decide (GOTCHA_VARIANCE_THRESHOLD < spreadOfRow row r)

/-- The disjunction gating every minimum-usage signal of one record. -/
def muOf (row : RawRecord) : Bool :=
  (fineOf row).has_min_usage_fee || minUsageFlagOf row

/-- The transparency score of the source: start at 100, subtract one
fixed penalty per triggered condition in source order, floor at 0. -/
def transparencyScore (g reb bc mu promo tou fx pre : Bool) : Int :=
  let t : Int := 100
  let t := if g then t - 25 else t
  let t := if reb then t - 20 else t
  let t := if bc then t - 10 else t
  let t := if mu then t - 15 else t
  let t := if promo then t - 10 else t
  let t := if tou then t - 10 else t
  let t := if !fx then t - 15 else t
  let t := if pre then t - 10 else t
  max 0 t

def takeS (n : Nat) (s : String) : String := String.mk (s.toList.take n)

/-- Python s or None for stored optional text. -/
def optS (s : String) : Option String := if s = "" then none else some s

/-- The canonical plan record the source appends for an accepted row
(updated_at carries the processing timestamp). -/
structure Plan where
  provider : String
  plan_name : String
  tdu : String
  rate_kwh : Q
  rate_kwh500 : Q
  rate_kwh2000 : Q
  weighted_rate : Q
  term_months : Int
  renewable_pct : Int
  cancel_fee : Q
  rate_type : String
  is_prepaid : Bool
  is_tou : Bool
  is_fixed : Bool
  is_new_customer : Bool
  is_promotion : Bool
  has_fees_credits : Bool
  fees_details : Option String
  special_terms : Option String
  promo_desc : Option String
  has_rebate : Bool
  rebate_amount : Option String
  has_base_charge : Bool
  base_charge_amount : Option String
  has_min_usage_fee : Bool
  min_usage_kwh : Option String
  has_pass_through : Bool
  rate_spread : Q
  is_gotcha : Bool
  warnings : List String
  transparency_score : Int
  efl_url : Option String
  enroll_url : Option String
  terms_url : Option String
  website : Option String
  enroll_phone : Option String
  updated_at : String
deriving DecidableEq, Inhabited

/-- The 500 kWh tier stored and used for weighting (falsy value falls
back to the validated 1000 kWh rate). -/
def tier500Of (row : RawRecord) (r : Q) : Q := pickTier (rate500Of row) r

def tier2000Of (row : RawRecord) (r : Q) : Q := pickTier (rate2000Of row) r

/-- weighted_rate of one accepted record: tier weights 0.2 / 0.5 / 0.3. -/
def weightedOf (row : RawRecord) (r : Q) : Q :=
  round2 (tier500Of row r * mkQ 2 10 + r * mkQ 5 10 + tier2000Of row r * mkQ 3 10)

/-- The ordered warning tags of one accepted record. -/
def warningsOf (row : RawRecord) (r : Q) : List String :=
  (if gotchaOf row r then ["price_varies_by_usage"] else []) ++
  (if (fineOf row).has_rebate then ["has_rebate_credit"] else []) ++
  (if (fineOf row).has_base_charge then ["has_base_charge"] else []) ++
  (if muOf row then ["has_min_usage_fee"] else []) ++
  (if (fineOf row).has_pass_through then ["has_pass_through"] else []) ++
  (if hasFeesCreditsOf row then ["has_usage_fees_credits"] else []) ++
  (if isNewCustomerOf row then ["new_customers_only"] else []) ++
  (if isPromotionOf row then ["promotional_rate"] else []) ++
  (if isPrepaidOf row then ["prepaid"] else []) ++
  (if isTouOf row then ["time_of_use"] else []) ++
  (if !isFixedOf row && isSubstr ("var").toList (lowerS (rateTypeOf row)).toList
     then ["variable_rate"] else []) ++
  (if cancelOf row > 200 then ["high_cancel_fee"] else [])

/-- transparency_score of one accepted record. -/
def scoreOf (row : RawRecord) (r : Q) : Int :=
  transparencyScore (gotchaOf row r) (fineOf row).has_rebate (fineOf row).has_base_charge
    (muOf row) (isPromotionOf row) (isTouOf row) (isFixedOf row) (isPrepaidOf row)

/-- Record assembly of the source for an accepted row with validated
1000 kWh rate and normalized TDU code. -/
def mkPlan (now : String) (row : RawRecord) (rate_1000 : Q) (tdu : String) : Plan :=
  { provider := providerOf row
    plan_name := planNameOf row
    tdu := tdu
    rate_kwh := rate_1000
    rate_kwh500 := tier500Of row rate_1000
    rate_kwh2000 := tier2000Of row rate_1000
    weighted_rate := weightedOf row rate_1000
    term_months := termOf row
    renewable_pct := renewOf row
    cancel_fee := cancelOf row
    rate_type := rateTypeOf row
    is_prepaid := isPrepaidOf row
    is_tou := isTouOf row
    is_fixed := isFixedOf row
    is_new_customer := isNewCustomerOf row
    is_promotion := isPromotionOf row
    has_fees_credits := hasFeesCreditsOf row
    fees_details := (optS (feesDetailsOf row)).map (takeS 500)
    special_terms := (optS (specialTermsOf row)).map (takeS 500)
    promo_desc := (optS (promoDescOf row)).map (takeS 300)
    has_rebate := (fineOf row).has_rebate
    rebate_amount := (fineOf row).rebate_amount
    has_base_charge := (fineOf row).has_base_charge
    base_charge_amount := (fineOf row).base_charge_amount
    has_min_usage_fee := muOf row
    min_usage_kwh := (fineOf row).min_usage_kwh
    has_pass_through := (fineOf row).has_pass_through
    rate_spread := spreadOfRow row rate_1000
    is_gotcha := gotchaOf row rate_1000
    warnings := warningsOf row rate_1000
    transparency_score := scoreOf row rate_1000
    efl_url := optS (eflUrlOf row)
    enroll_url := optS (enrollUrlOf row)
    terms_url := optS (termsUrlOf row)
    website := optS (websiteOf row)
    enroll_phone := optS (enrollPhoneOf row)
    updated_at := now }

/-- Per-run rejection tally of the source. -/
structure Rejected where
  low_rate : Nat
  high_rate : Nat
  short_term : Nat
  no_data : Nat
  duplicate : Nat
deriving DecidableEq, Inhabited

/-- Run-scoped state of the parse loop: accepted plans in order, the
rejection tally, the two info counters and the dedup key set. -/
structure ParseState where
  plans : List Plan
  rejected : Rejected
  gotcha_count : Nat
  rebate_count : Nat
  seen : List String
deriving DecidableEq, Inhabited

/-- The dedup key the source builds for one row. -/
def rowKey (row : RawRecord) (r : Q) (tdu : String) : String :=
  providerOf row ++ "|" ++ planNameOf row ++ "|" ++ tdu ++ "|" ++ qstr r

/-- The same key recomputed from an emitted plan. -/
def keyOf (p : Plan) : String :=
  p.provider ++ "|" ++ p.plan_name ++ "|" ++ p.tdu ++ "|" ++ qstr p.rate_kwh

def addNoData (st : ParseState) : ParseState :=
  { st with rejected := { st.rejected with no_data := st.rejected.no_data + 1 } }

def addLowRate (st : ParseState) : ParseState :=
  { st with rejected := { st.rejected with low_rate := st.rejected.low_rate + 1 } }

def addHighRate (st : ParseState) : ParseState :=
  { st with rejected := { st.rejected with high_rate := st.rejected.high_rate + 1 } }

def addShortTerm (st : ParseState) : ParseState :=
  { st with rejected := { st.rejected with short_term := st.rejected.short_term + 1 } }

def addDuplicate (st : ParseState) : ParseState :=
  { st with rejected := { st.rejected with duplicate := st.rejected.duplicate + 1 } }

/-- One iteration of the parse loop of the source: the ordered
validation checks with their rejection buckets, dedup, and assembly. -/
def processRow (now : String) (st : ParseState) (row : RawRecord) : ParseState :=
  if providerOf row = "" ∨ planNameOf row = "" then addNoData st
  else
    match rate1000Of row with
    | none => addNoData st
    | some rate_1000 =>
      if rate_1000 < MIN_RATE then addLowRate st
      else if MAX_RATE < rate_1000 then addHighRate st
      else if termOf row < MIN_TERM then addShortTerm st
      else
        match normalize_tdu (tduRawOf row) with
        | none => addNoData st
        | some tdu =>
          if tdu = "" then addNoData st
          else if rowKey row rate_1000 tdu ∈ st.seen then addDuplicate st
          else
            { plans := st.plans ++ [mkPlan now row rate_1000 tdu]
              rejected := st.rejected
              gotcha_count := st.gotcha_count + (if gotchaOf row rate_1000 then 1 else 0)
              rebate_count := st.rebate_count + (if (fineOf row).has_rebate then 1 else 0)
              seen := rowKey row rate_1000 tdu :: st.seen }

def initState : ParseState :=
  { plans := [], rejected := ⟨0, 0, 0, 0, 0⟩, gotcha_count := 0, rebate_count := 0, seen := [] }

/-- parse_csv of the source, restricted to its algorithmic core: fold
the per-row step over the input rows in order. -/
def parse_csv (now : String) (rows : List RawRecord) : ParseState :=
  rows.foldl (processRow now) initState

/-! Concrete inputs taken from the claims. -/

def c1row : RawRecord :=
  [("kwh500", "0.158"), ("kwh1000", "0.089"), ("kwh2000", "0.121"),
   ("TduCompanyName", "ONCOR ELECTRIC DELIVERY"), ("RepCompany", "Acme Power"),
   ("Product", "SuperSaver 12")]

def c1plan : Plan := (parse_csv ("") [c1row]).plans.head!

def c2text : String :=
  "Bill credit of $50 applies if usage exceeds 1000 kWh; minimum usage fee if under 800 kWh"

def c2fine : FinePrint := detect_rebate_flags c2text ("") ("")

/-- Modelled from the spec sentence for comparison: strip all non-digit
characters and parse the remainder as an integer, default 12. -/
def term_spec (raw : String) : Int :=
  let ds := raw.toList.filter isDigitCh
  if ds.isEmpty then 12 else Int.ofNat (digitsToNat ds)

/-- Modelled from the spec, for comparison with parse_rate of the
source: strip the currency / cent / comma decoration, parse as a
floating value, multiply by 100 when strictly between 0 and 1, round to
2 decimals, absent on failure. -/
def rate_spec (val : String) : Option Q :=
  match parseFloat? (String.mk (val.toList.filter (fun c => !isRateJunk c))) with
  | none => none
  | some rate => some (round2 (if 0 < rate ∧ rate < 1 then rate * 100 else rate))

/-- Stripping the processing timestamp of a plan. -/
def stripStamp (p : Plan) : Plan := { p with updated_at := "" }

/-- The conditions under which one row passes every validation check of
the source (in source order: identity, rate present and in bounds, term,
TDU). -/
def RowOk (row : RawRecord) (r : Q) (tdu : String) : Prop :=
  providerOf row ≠ "" ∧ planNameOf row ≠ "" ∧ rate1000Of row = some r ∧
  ¬ r < MIN_RATE ∧ ¬ MAX_RATE < r ∧ ¬ termOf row < MIN_TERM ∧
  normalize_tdu (tduRawOf row) = some tdu ∧ tdu ≠ ""

instance (row : RawRecord) (r : Q) (tdu : String) : Decidable (RowOk row r tdu) := by
  unfold RowOk; infer_instance

/-- A plan is good for a timestamp when some validated row assembles it. -/
def GoodPlan (now : String) (p : Plan) : Prop :=
  ∃ row r tdu, RowOk row r tdu ∧ p = mkPlan now row r tdu

def lowrow : RawRecord := [("RepCompany", "P"), ("Product", "N"), ("kwh1000", "2.5")]

def highrow : RawRecord := [("RepCompany", "P"), ("Product", "N"), ("kwh1000", "60")]

/-- The penalty list of one emitted plan, one entry per scored
condition, in source order. -/
def penaltiesOf (p : Plan) : List Int :=
  [if p.is_gotcha then 25 else 0, if p.has_rebate then 20 else 0,
   if p.has_base_charge then 10 else 0, if p.has_min_usage_fee then 15 else 0,
   if p.is_promotion then 10 else 0, if p.is_tou then 10 else 0,
   if p.is_fixed then 0 else 15, if p.is_prepaid then 10 else 0]

/-- 100 minus the penalty sum, clamped to [0, 100]. -/
def scoreFromPenalties (l : List Int) : Int := min 100 (max 0 (100 - l.sum))

def c9row : RawRecord :=
  [("RepCompany", "P"), ("Product", "N"), ("TduCompanyName", "oncor"),
   ("kwh1000", "10"), ("kwh500", "0")]

/-- The penalty total of the seven scored conditions other than the
minimum-usage fee. -/
def otherPenaltyOf (row : RawRecord) (r : Q) : Int :=
  (if gotchaOf row r then 25 else 0) + (if (fineOf row).has_rebate then 20 else 0) +
  (if (fineOf row).has_base_charge then 10 else 0) + (if isPromotionOf row then 10 else 0) +
  (if isTouOf row then 10 else 0) + (if isFixedOf row then 0 else 15) +
  (if isPrepaidOf row then 10 else 0)

def c10row : RawRecord :=
  [("RepCompany", "P"), ("Product", "N"), ("TduCompanyName", "oncor"),
   ("kwh1000", "10"), ("MinUsageFeesCredits", "TRUE")]

/-- The composite identity of the dedup rule, read off an emitted plan. -/
def tupleEq (p q : Plan) : Prop :=
  p.provider = q.provider ∧ p.plan_name = q.plan_name ∧ p.tdu = q.tdu ∧ p.rate_kwh = q.rate_kwh

instance (p q : Plan) : Decidable (tupleEq p q) := by unfold tupleEq; infer_instance

/-- Dedup invariant of the running state: every emitted plan's key is
recorded, and no two emitted plans share a key. -/
def SeenInv (st : ParseState) : Prop :=
  (∀ q ∈ st.plans, keyOf q ∈ st.seen) ∧ st.plans.Pairwise (fun p q => keyOf p ≠ keyOf q)

def c4row1 : RawRecord :=
  [("RepCompany", "P"), ("Product", "N"), ("TduCompanyName", "oncor"), ("kwh1000", "10")]

def c4row2 : RawRecord :=
  [("RepCompany", "P"), ("Product", "N"), ("TduCompanyName", "oncor"), ("kwh1000", "10"),
   ("TermValue", "1")]

/-- Equality of running states up to the plan timestamps. -/
def StripEq (st₁ st₂ : ParseState) : Prop :=
  st₁.plans.map stripStamp = st₂.plans.map stripStamp ∧
  st₁.rejected = st₂.rejected ∧ st₁.gotcha_count = st₂.gotcha_count ∧
  st₁.rebate_count = st₂.rebate_count ∧ st₁.seen = st₂.seen

/-- C1, counterexample to the claimed weighted rate: on the scenario row
the engine computes weighted_rate = 11.24, not the 11.64 the claim
states (15.8·0.2 + 8.9·0.5 + 12.1·0.3 = 11.24). -/
theorem spec_c1_cex :
    c1plan.weighted_rate = mkQ 1124 100 ∧ ¬ c1plan.weighted_rate = mkQ 1164 100 := by
  decide

/-- C1 (amended): on the input row with kwh500 0.158, kwh1000 0.089,
kwh2000 0.121, TDU "ONCOR ELECTRIC DELIVERY", provider "Acme Power",
plan "SuperSaver 12", the engine emits exactly one plan with tdu ONCOR,
tier rates 15.8 / 8.9 / 12.1 cents, rate_spread 6.9, is_gotcha true, the
warning price_varies_by_usage present, and
weighted_rate = 15.8·0.2 + 8.9·0.5 + 12.1·0.3 = 11.24. -/
theorem spec_c1 :
    (parse_csv ("") [c1row]).plans = [c1plan] ∧
    c1plan.tdu = "ONCOR" ∧
    c1plan.rate_kwh500 = mkQ 158 10 ∧
    c1plan.rate_kwh = mkQ 89 10 ∧
    c1plan.rate_kwh2000 = mkQ 121 10 ∧
    c1plan.rate_spread = mkQ 69 10 ∧
    c1plan.is_gotcha = true ∧
    "price_varies_by_usage" ∈ c1plan.warnings ∧
    c1plan.weighted_rate = round2 (mkQ 158 10 * mkQ 2 10 + mkQ 89 10 * mkQ 5 10 + mkQ 121 10 * mkQ 3 10) ∧
    c1plan.weighted_rate = mkQ 1124 100 := by
  decide

/-- C2, counterexample: on the claimed free text the scanner finds no
rebate amount and no minimum-usage threshold — the dollar amount is
followed by "applies" rather than a credit word, and the minimum-usage
phrase is followed by "fee" rather than a number, while "under" is not
the "less than" the pattern requires. -/
theorem spec_c2_cex :
    c2fine.has_rebate = false ∧ c2fine.rebate_amount = none ∧
    c2fine.has_min_usage_fee = false ∧ c2fine.min_usage_kwh = none := by
  decide

/-- C2 (amended): on the text "Bill credit of $50 applies if usage
exceeds 1000 kWh; minimum usage fee if under 800 kWh" the fine-print
scanner extracts no structured amounts at all (the patterns require a
dollar amount immediately followed by a credit word, and a number right
after the minimum-usage phrase), yielding has_rebate = false,
rebate_amount = none, has_min_usage_fee = false, min_usage_kwh = none;
only the informational keyword flags credit, bill credit, minimum usage
and usage fee fire. -/
theorem spec_c2 :
    c2fine = { has_rebate := false, rebate_amount := none,
               has_base_charge := false, base_charge_amount := none,
               has_min_usage_fee := false, min_usage_kwh := none,
               has_pass_through := false,
               fine_print_flags := ["credit", "bill credit", "minimum usage", "usage fee"] } := by
  decide

lemma mulQ_def (a b : Q) : a * b = mkQ (a.num * b.num) (a.den * b.den) := rfl

lemma addQ_def (a b : Q) : a + b = mkQ (a.num * (b.den : Int) + b.num * (a.den : Int)) (a.den * b.den) := rfl

lemma ngcd_one (a : Nat) : ngcd a 1 = 1 := by
  unfold ngcd
  match a with
  | 0 => rfl
  | 1 => rfl
  | (b + 2) =>
    have h1 : 1 % (b + 2) = 1 := Nat.mod_eq_of_lt (by omega)
    simp [gcdF, h1, Nat.mod_one]

lemma mkQ_int (n : Int) : mkQ n 1 = ⟨n, 1⟩ := by
  unfold mkQ
  rw [if_neg (by omega : ¬ (1 = 0))]
  simp [ngcd_one]

lemma dropWhile_of_all_false {p : Char → Bool} {l : List Char} (h : ∀ c ∈ l, p c = false) :
    l.dropWhile p = l := by
  cases l with
  | nil => rfl
  | cons c cs => simp [List.dropWhile_cons, h c (by simp)]

lemma pstrip_of_all_false {l : List Char} (h : ∀ c ∈ l, isPySpace c = false) : pstrip l = l := by
  unfold pstrip dropEnd
  rw [dropWhile_of_all_false h]
  rw [dropWhile_of_all_false (fun c hc => h c (List.mem_reverse.mp hc))]
  exact List.reverse_reverse l

lemma removeAllAux_of_ne {p : Char} {ps : List Char} (fuel : Nat) (l : List Char)
    (h : ∀ c ∈ l, (p == c) = false) : removeAllAux (p :: ps) fuel l = l := by
  induction fuel generalizing l with
  | zero => rfl
  | succ n ih =>
    cases l with
    | nil => rfl
    | cons c cs =>
      have hc : (p == c) = false := h c (by simp)
      simp [removeAllAux, eatLit, hc, ih cs (fun d hd => h d (by simp [hd]))]

lemma digit_not_space {c : Char} (h : isDigitCh c = true) : isPySpace c = false := by
  cases hs : isPySpace c with
  | false => rfl
  | true =>
    exfalso
    unfold isPySpace at hs
    rcases Bool.or_eq_true_iff.mp hs with h1 | h1
    · rcases Bool.or_eq_true_iff.mp h1 with h2 | h2
      · rcases Bool.or_eq_true_iff.mp h2 with h3 | h3
        · rcases Bool.or_eq_true_iff.mp h3 with h4 | h4
          · rcases Bool.or_eq_true_iff.mp h4 with h5 | h5
            · rw [eq_of_beq h5] at h; exact absurd h (by decide)
            · rw [eq_of_beq h5] at h; exact absurd h (by decide)
          · rw [eq_of_beq h4] at h; exact absurd h (by decide)
        · rw [eq_of_beq h3] at h; exact absurd h (by decide)
      · rw [eq_of_beq h2] at h; exact absurd h (by decide)
    · rw [eq_of_beq h1] at h; exact absurd h (by decide)

lemma parseFloat_digits {d : Char} {tl : List Char} (h : ∀ c ∈ d :: tl, isDigitCh c = true) :
    parseFloat? (String.mk (d :: tl)) = some (intQ (Int.ofNat (digitsToNat (d :: tl)))) := by
  have hd := h d (by simp)
  have hstrip : pstrip (d :: tl) = d :: tl :=
    pstrip_of_all_false (fun c hc => digit_not_space (h c hc))
  have hplus : (d == '+') = false := by
    rw [beq_eq_false_iff_ne]; intro e; rw [e] at hd; exact absurd hd (by decide)
  have hminus : (d == '-') = false := by
    rw [beq_eq_false_iff_ne]; intro e; rw [e] at hd; exact absurd hd (by decide)
  have htake : (d :: tl).takeWhile isDigitCh = d :: tl := List.takeWhile_eq_self_iff.mpr h
  have hdrop : (d :: tl).dropWhile isDigitCh = [] := List.dropWhile_eq_nil_iff.mpr h
  simp only [parseFloat?]
  rw [show (String.mk (d :: tl)).toList = d :: tl from rfl, hstrip]
  simp only [parseSign, hplus, hminus, Bool.false_eq_true, if_false, htake, hdrop]
  simp only [List.isEmpty_cons, Bool.false_and, Bool.false_eq_true, if_false, parseExpPart]
  rw [show mkQ (Int.ofNat (digitsToNat ([] : List Char))) (10 ^ List.length ([] : List Char))
        = (⟨0, 1⟩ : Q) from by decide]
  rw [show intQ (Int.ofNat (digitsToNat (d :: tl))) + (⟨0, 1⟩ : Q)
        = mkQ (Int.ofNat (digitsToNat (d :: tl))) 1 from by rw [addQ_def]; simp [intQ]]
  rw [mkQ_int]
  rw [show (1 : Q) * (⟨Int.ofNat (digitsToNat (d :: tl)), 1⟩ : Q)
        = mkQ (Int.ofNat (digitsToNat (d :: tl))) 1 from by
      rw [mulQ_def]
      show mkQ (1 * Int.ofNat (digitsToNat (d :: tl))) (1 * 1) = _
      simp]
  rw [mkQ_int]
  rw [show qpow10 0 = (⟨1, 1⟩ : Q) from by decide]
  rw [show (⟨Int.ofNat (digitsToNat (d :: tl)), 1⟩ : Q) * (⟨1, 1⟩ : Q)
        = mkQ (Int.ofNat (digitsToNat (d :: tl))) 1 from by rw [mulQ_def]; simp]
  rw [mkQ_int]
  rfl

/-- C6, counterexample: term parsing does not strip all non-digit
characters — the raw text "24m" contains the digits 24 but parses to the
default 12, while the behaviour the claim describes would give 24. -/
theorem spec_c6_cex : parse_term ("24m") = 12 ∧ term_spec ("24m") = 24 := by decide

/-- C6 (amended): term parsing strips surrounding whitespace, deletes
the literal substrings "months" and "mo", parses the remainder as a
decimal number truncated toward zero, and yields the default 12 on any
parse failure, never raising.  A raw value consisting solely of digits
parses to that integer; other non-digit decoration (beyond whitespace
and the two deleted substrings) makes the parse fail to the default,
e.g. "24m" gives 12 and "12.5" truncates to 12. -/
theorem spec_c6 :
    (∀ ds : List Char, ds ≠ [] → (∀ c ∈ ds, isDigitCh c = true) →
        parse_term (String.mk ds) = Int.ofNat (digitsToNat ds)) ∧
    parse_term ("24 months") = 24 ∧ parse_term ("6 mo") = 6 ∧
    parse_term ("12.5") = 12 ∧ parse_term ("24m") = 12 ∧
    parse_term ("") = 12 ∧ parse_term ("abc") = 12 := by
  refine ⟨?_, by decide, by decide, by decide, by decide, by decide, by decide⟩
  intro ds hne h
  obtain ⟨d, tl, rfl⟩ := List.exists_cons_of_ne_nil hne
  have hm : ∀ c ∈ d :: tl, ('m' == c) = false := by
    intro c hc
    rw [beq_eq_false_iff_ne]
    intro e
    have := h c hc
    rw [← e] at this
    exact absurd this (by decide)
  have hstrip : pstrip (d :: tl) = d :: tl :=
    pstrip_of_all_false (fun c hc => digit_not_space (h c hc))
  unfold parse_term
  rw [show (String.mk (d :: tl)).toList = d :: tl from rfl, hstrip]
  unfold removeAll
  rw [show ("months").toList = 'm' :: ("onths").toList from rfl]
  rw [removeAllAux_of_ne _ _ hm]
  rw [show ("mo").toList = 'm' :: ("o").toList from rfl]
  rw [removeAllAux_of_ne _ _ hm]
  rw [hstrip, parseFloat_digits h]
  show truncInt (intQ (Int.ofNat (digitsToNat (d :: tl)))) = Int.ofNat (digitsToNat (d :: tl))
  unfold truncInt
  rw [if_neg (by
    show ¬ Q.lt (intQ (Int.ofNat (digitsToNat (d :: tl)))) 0
    unfold Q.lt intQ
    show ¬ (Int.ofNat (digitsToNat (d :: tl)) * ((1 : Nat) : Int) < Q.num 0 * ((1 : Nat) : Int))
    rw [show Q.num 0 = (0 : Int) from rfl]
    simp)]
  show Int.ediv (Int.ofNat (digitsToNat (d :: tl))) ((1 : Nat) : Int) = _
  exact Int.ediv_one (Int.ofNat (digitsToNat (d :: tl)))

/-- C6 witness: the all-digits case of the amended claim at the concrete
input "24". -/
theorem spec_c6_witness : parse_term (String.mk ['2', '4']) = 24 := by
  have h := spec_c6.1 ['2', '4'] (by decide) (by decide)
  rw [h]; decide

lemma dropWhile_append_all {a y : List Char} (ha : ∀ c ∈ a, isPySpace c = true) :
    (a ++ y).dropWhile isPySpace = y.dropWhile isPySpace := by
  induction a with
  | nil => rfl
  | cons c cs ih =>
    rw [List.cons_append, List.dropWhile_cons, if_pos (ha c (by simp))]
    exact ih (fun d hd => ha d (by simp [hd]))

lemma pstrip_prepend_spaces {a y : List Char} (ha : ∀ c ∈ a, isPySpace c = true) :
    pstrip (a ++ y) = pstrip y := by
  unfold pstrip
  rw [dropWhile_append_all ha]

lemma dropWhile_append_of_ne_nil {p : Char → Bool} {x : List Char} (y : List Char)
    (hx : x.dropWhile p ≠ []) : (x ++ y).dropWhile p = x.dropWhile p ++ y := by
  induction x with
  | nil => exact absurd rfl hx
  | cons c cs ih =>
    rw [List.cons_append, List.dropWhile_cons, List.dropWhile_cons]
    by_cases hc : p c = true
    · rw [if_pos hc, if_pos hc]
      rw [List.dropWhile_cons, if_pos hc] at hx
      exact ih hx
    · rw [if_neg hc, if_neg hc, List.cons_append]

lemma dropEnd_append_spaces {z b : List Char} (hb : ∀ c ∈ b, isPySpace c = true) :
    dropEnd isPySpace (z ++ b) = dropEnd isPySpace z := by
  unfold dropEnd
  rw [List.reverse_append, dropWhile_append_all (fun c hc => hb c (List.mem_reverse.mp hc))]

lemma pstrip_append_spaces {z b : List Char} (hb : ∀ c ∈ b, isPySpace c = true) :
    pstrip (z ++ b) = pstrip z := by
  unfold pstrip
  by_cases hz : z.dropWhile isPySpace = []
  · rw [hz]
    rw [show (z ++ b).dropWhile isPySpace = b.dropWhile isPySpace from
          dropWhile_append_all (List.dropWhile_eq_nil_iff.mp hz)]
    rw [List.dropWhile_eq_nil_iff.mpr hb]
  · rw [dropWhile_append_of_ne_nil b hz, dropEnd_append_spaces hb]

lemma pstrip_filter_pstrip (keep : Char → Bool)
    (l : List Char) : pstrip ((pstrip l).filter keep) = pstrip (l.filter keep) := by
  conv_rhs => rw [← List.takeWhile_append_dropWhile isPySpace l]
  rw [List.filter_append]
  rw [pstrip_prepend_spaces (fun c hc => by
    exact List.mem_takeWhile_imp (List.mem_of_mem_filter hc))]
  have hdecomp : l.dropWhile isPySpace =
      dropEnd isPySpace (l.dropWhile isPySpace) ++
        ((l.dropWhile isPySpace).reverse.takeWhile isPySpace).reverse := by
    conv_lhs => rw [← List.reverse_reverse (l.dropWhile isPySpace),
      ← List.takeWhile_append_dropWhile isPySpace (l.dropWhile isPySpace).reverse]
    rw [List.reverse_append]
    rfl
  conv_rhs => rw [hdecomp]
  rw [List.filter_append]
  rw [pstrip_append_spaces (fun c hc => by
    exact List.mem_takeWhile_imp (List.mem_reverse.mp (List.mem_of_mem_filter hc)))]
  rfl

lemma parseFloat?_congr {a b : List Char} (h : pstrip a = pstrip b) :
    parseFloat? (String.mk a) = parseFloat? (String.mk b) := by
  simp only [parseFloat?]
  rw [show (String.mk a).toList = a from rfl, show (String.mk b).toList = b from rfl, h]

/-- C7: rate parsing strips dollar, cent and comma decoration, parses a
float, multiplies by 100 exactly when the parsed value lies strictly
between 0 and 1, rounds to 2 decimals, and returns none rather than
raising on any parse failure; raw "0.089" normalizes to 8.9 and raw
"8.9" stays 8.9 unchanged. -/
theorem spec_c7 :
    (∀ s, parse_rate s = rate_spec s) ∧
    parse_rate ("0.089") = some (mkQ 89 10) ∧
    parse_rate ("8.9") = some (mkQ 89 10) ∧
    parse_rate ("$0.158") = some (mkQ 158 10) ∧
    parse_rate ("") = none ∧ parse_rate ("abc") = none := by
  refine ⟨?_, by decide, by decide, by decide, by decide, by decide⟩
  intro s
  unfold parse_rate rate_spec
  by_cases hs : s = ""
  · subst hs; rfl
  · rw [if_neg hs]
    rw [parseFloat?_congr (pstrip_filter_pstrip (fun c => !isRateJunk c) s.toList)]

lemma strip_mkPlan (now : String) (row : RawRecord) (r : Q) (tdu : String) :
    stripStamp (mkPlan now row r tdu) = mkPlan ("") row r tdu := by
  simp only [stripStamp, mkPlan]

lemma processRow_cases (now : String) (st : ParseState) (row : RawRecord) :
    ((processRow now st row).plans = st.plans ∧ (processRow now st row).seen = st.seen) ∨
    ∃ r tdu, RowOk row r tdu ∧ rowKey row r tdu ∉ st.seen ∧
      processRow now st row =
        { plans := st.plans ++ [mkPlan now row r tdu]
          rejected := st.rejected
          gotcha_count := st.gotcha_count + (if gotchaOf row r then 1 else 0)
          rebate_count := st.rebate_count + (if (fineOf row).has_rebate then 1 else 0)
          seen := rowKey row r tdu :: st.seen } := by
  unfold processRow
  split
  · exact Or.inl ⟨rfl, rfl⟩
  next h1 =>
  split
  · exact Or.inl ⟨rfl, rfl⟩
  next r hr =>
  split
  · exact Or.inl ⟨rfl, rfl⟩
  next h2 =>
  split
  · exact Or.inl ⟨rfl, rfl⟩
  next h3 =>
  split
  · exact Or.inl ⟨rfl, rfl⟩
  next h4 =>
  split
  · exact Or.inl ⟨rfl, rfl⟩
  next tdu ht =>
  split
  · exact Or.inl ⟨rfl, rfl⟩
  next h5 =>
  split
  · exact Or.inl ⟨rfl, rfl⟩
  next h6 =>
  exact Or.inr ⟨r, tdu,
    ⟨fun hc => h1 (Or.inl hc), fun hc => h1 (Or.inr hc), hr, h2, h3, h4, ht, h5⟩,
    h6, rfl⟩

lemma mem_plans_processRow {now : String} {st : ParseState} {row : RawRecord} {p : Plan}
    (hp : p ∈ (processRow now st row).plans) : p ∈ st.plans ∨ GoodPlan now p := by
  rcases processRow_cases now st row with ⟨h, _⟩ | ⟨r, tdu, hok, _, heq⟩
  · rw [h] at hp; exact Or.inl hp
  · rw [heq] at hp
    rcases List.mem_append.mp hp with h | h
    · exact Or.inl h
    · exact Or.inr ⟨row, r, tdu, hok, List.mem_singleton.mp h⟩

lemma mem_plans_foldl {now : String} (rows : List RawRecord) :
    ∀ st : ParseState, (∀ q ∈ st.plans, GoodPlan now q) →
      ∀ q ∈ (rows.foldl (processRow now) st).plans, GoodPlan now q := by
  induction rows with
  | nil => intro st hst q hq; exact hst q hq
  | cons row rest ih =>
    intro st hst q hq
    refine ih (processRow now st row) ?_ q hq
    intro q' hq'
    rcases mem_plans_processRow hq' with h | h
    · exact hst q' h
    · exact h

lemma mem_plans_parse_csv {now : String} {rows : List RawRecord} {p : Plan}
    (hp : p ∈ (parse_csv now rows).plans) : GoodPlan now p :=
  mem_plans_foldl rows initState (by intro q hq; simp [initState] at hq) p hp

lemma qle_of_not_lt {a b : Q} (h : ¬ a < b) : b ≤ a := Int.not_lt.mp h

lemma mkPlan_fields (now : String) (row : RawRecord) (r : Q) (tdu : String) :
    (mkPlan now row r tdu).rate_kwh = r ∧
    (mkPlan now row r tdu).transparency_score = scoreOf row r ∧
    (mkPlan now row r tdu).is_gotcha = gotchaOf row r ∧
    (mkPlan now row r tdu).has_rebate = (fineOf row).has_rebate ∧
    (mkPlan now row r tdu).has_base_charge = (fineOf row).has_base_charge ∧
    (mkPlan now row r tdu).has_min_usage_fee = muOf row ∧
    (mkPlan now row r tdu).is_promotion = isPromotionOf row ∧
    (mkPlan now row r tdu).is_tou = isTouOf row ∧
    (mkPlan now row r tdu).is_fixed = isFixedOf row ∧
    (mkPlan now row r tdu).is_prepaid = isPrepaidOf row ∧
    (mkPlan now row r tdu).warnings = warningsOf row r := by
  simp only [mkPlan]
  exact ⟨trivial, trivial, trivial, trivial, trivial, trivial, trivial, trivial, trivial,
    trivial, trivial⟩

/-- Reject-bucket equation: absent 1000 kWh rate is rejected as no_data
(whichever of the two no_data checks fires first). -/
lemma processRow_no_rate {now : String} {st : ParseState} {row : RawRecord}
    (hr : rate1000Of row = none) : processRow now st row = addNoData st := by
  unfold processRow
  by_cases h1 : providerOf row = "" ∨ planNameOf row = ""
  · rw [if_pos h1]
  · rw [if_neg h1]
    simp only [hr]

lemma processRow_low {now : String} {st : ParseState} {row : RawRecord} {r : Q}
    (h1 : providerOf row ≠ "") (h2 : planNameOf row ≠ "") (hr : rate1000Of row = some r)
    (hlow : r < MIN_RATE) : processRow now st row = addLowRate st := by
  unfold processRow
  rw [if_neg (not_or.mpr ⟨h1, h2⟩)]
  simp only [hr, if_pos hlow]

lemma processRow_high {now : String} {st : ParseState} {row : RawRecord} {r : Q}
    (h1 : providerOf row ≠ "") (h2 : planNameOf row ≠ "") (hr : rate1000Of row = some r)
    (hlow : ¬ r < MIN_RATE) (hhigh : MAX_RATE < r) : processRow now st row = addHighRate st := by
  unfold processRow
  rw [if_neg (not_or.mpr ⟨h1, h2⟩)]
  simp only [hr, if_neg hlow, if_pos hhigh]

/-- C5: every emitted plan has rate_1000 present and within
[MIN_RATE, MAX_RATE] inclusive, and a record with the 1000 kWh rate
absent, below MIN_RATE or above MAX_RATE is rejected into the buckets
no_data, low_rate, high_rate respectively, producing no plan. -/
theorem spec_c5 :
    (∀ now rows p, p ∈ (parse_csv now rows).plans →
      MIN_RATE ≤ p.rate_kwh ∧ p.rate_kwh ≤ MAX_RATE) ∧
    (∀ now st row, rate1000Of row = none → processRow now st row = addNoData st) ∧
    (∀ now st row r, providerOf row ≠ "" → planNameOf row ≠ "" → rate1000Of row = some r →
      r < MIN_RATE → processRow now st row = addLowRate st) ∧
    (∀ now st row r, providerOf row ≠ "" → planNameOf row ≠ "" → rate1000Of row = some r →
      ¬ r < MIN_RATE → MAX_RATE < r → processRow now st row = addHighRate st) := by
  refine ⟨?_, ?_, ?_, ?_⟩
  · intro now rows p hp
    obtain ⟨row, r, tdu, hok, rfl⟩ := mem_plans_parse_csv hp
    rw [(mkPlan_fields now row r tdu).1]
    exact ⟨qle_of_not_lt hok.2.2.2.1, qle_of_not_lt hok.2.2.2.2.1⟩
  · intro now st row hr; exact processRow_no_rate hr
  · intro now st row r h1 h2 hr hlow; exact processRow_low h1 h2 hr hlow
  · intro now st row r h1 h2 hr hlow hhigh; exact processRow_high h1 h2 hr hlow hhigh

/-- C5 witness: the bound and each rejection bucket at concrete inputs. -/
theorem spec_c5_witness :
    (MIN_RATE ≤ c1plan.rate_kwh ∧ c1plan.rate_kwh ≤ MAX_RATE) ∧
    processRow ("") initState [] = addNoData initState ∧
    processRow ("") initState lowrow = addLowRate initState ∧
    processRow ("") initState highrow = addHighRate initState :=
  ⟨spec_c5.1 ("") [c1row] c1plan (by decide),
   spec_c5.2.1 ("") initState [] (by decide),
   spec_c5.2.2.1 ("") initState lowrow (mkQ 5 2) (by decide) (by decide) (by decide) (by decide),
   spec_c5.2.2.2 ("") initState highrow (mkQ 60 1) (by decide) (by decide) (by decide)
     (by decide) (by decide)⟩

lemma transparencyScore_eq :
    ∀ g reb bc mu pr tou fx pre : Bool,
      transparencyScore g reb bc mu pr tou fx pre =
        scoreFromPenalties [if g then 25 else 0, if reb then 20 else 0,
          if bc then 10 else 0, if mu then 15 else 0, if pr then 10 else 0,
          if tou then 10 else 0, if fx then 0 else 15, if pre then 10 else 0] ∧
      0 ≤ transparencyScore g reb bc mu pr tou fx pre ∧
      transparencyScore g reb bc mu pr tou fx pre ≤ 100 := by
  decide

/-- C3: every emitted plan's transparency score equals 100 minus the sum
of the fixed independent penalties of its triggered conditions, clamped
to [0, 100]; the deduction order is irrelevant (any permutation of the
penalty list scores equally), and the score always lies in [0, 100]. -/
theorem spec_c3 :
    (∀ now rows p, p ∈ (parse_csv now rows).plans →
      p.transparency_score = scoreFromPenalties (penaltiesOf p) ∧
      0 ≤ p.transparency_score ∧ p.transparency_score ≤ 100) ∧
    (∀ l₁ l₂ : List Int, l₁.Perm l₂ → scoreFromPenalties l₁ = scoreFromPenalties l₂) := by
  constructor
  · intro now rows p hp
    obtain ⟨row, r, tdu, _, rfl⟩ := mem_plans_parse_csv hp
    obtain ⟨_, hsc, hg, hreb, hbc, hmu, hpr, htou, hfx, hpre, _⟩ := mkPlan_fields now row r tdu
    rw [hsc]
    unfold penaltiesOf
    rw [hg, hreb, hbc, hmu, hpr, htou, hfx, hpre]
    unfold scoreOf
    exact transparencyScore_eq (gotchaOf row r) (fineOf row).has_rebate
      (fineOf row).has_base_charge (muOf row) (isPromotionOf row) (isTouOf row)
      (isFixedOf row) (isPrepaidOf row)
  · intro l₁ l₂ hperm
    unfold scoreFromPenalties
    rw [hperm.sum_eq]

/-- C3 witness: the score law at the concrete emitted plan of the C1
scenario, and order irrelevance at a concrete pair of penalty lists. -/
theorem spec_c3_witness :
    (c1plan.transparency_score = scoreFromPenalties (penaltiesOf c1plan) ∧
     0 ≤ c1plan.transparency_score ∧ c1plan.transparency_score ≤ 100) ∧
    scoreFromPenalties [25, 15] = scoreFromPenalties [15, 25] :=
  ⟨spec_c3.1 ("") [c1row] c1plan (by decide),
   spec_c3.2 [25, 15] [15, 25] (List.Perm.swap 15 25 [])⟩

/-- C9: a tier rate that parses to exactly 0 is treated as absent: the
weighting falls back to the 1000 kWh rate, the zero is excluded from the
tier list feeding rate_spread, and the emitted tier field equals the
1000 kWh rate rather than 0. -/
theorem spec_c9 :
    (∀ now rows p, p ∈ (parse_csv now rows).plans →
      ∃ row r tdu, rate1000Of row = some r ∧ p = mkPlan now row r tdu) ∧
    (∀ r : Q, pickTier (some 0) r = r ∧ pickTier none r = r) ∧
    (∀ x y, truthyRates [some 0, x, y] = truthyRates [none, x, y]) ∧
    (∀ now row r tdu, rate500Of row = some 0 →
      (mkPlan now row r tdu).rate_kwh500 = r ∧
      (mkPlan now row r tdu).weighted_rate =
        round2 (r * mkQ 2 10 + r * mkQ 5 10 + tier2000Of row r * mkQ 3 10) ∧
      tiersOf row r = truthyRates [none, some r, rate2000Of row]) ∧
    (∀ now row r tdu, rate2000Of row = some 0 →
      (mkPlan now row r tdu).rate_kwh2000 = r ∧
      (mkPlan now row r tdu).weighted_rate =
        round2 (tier500Of row r * mkQ 2 10 + r * mkQ 5 10 + r * mkQ 3 10) ∧
      tiersOf row r = truthyRates [rate500Of row, some r, none]) := by
  refine ⟨?_, ?_, ?_, ?_, ?_⟩
  · intro now rows p hp
    obtain ⟨row, r, tdu, hok, rfl⟩ := mem_plans_parse_csv hp
    exact ⟨row, r, tdu, hok.2.2.1, rfl⟩
  · intro r; exact ⟨by simp [pickTier], rfl⟩
  · intro x y; simp [truthyRates]
  · intro now row r tdu h5
    refine ⟨?_, ?_, ?_⟩
    · show tier500Of row r = r
      simp [tier500Of, h5, pickTier]
    · show weightedOf row r = _
      unfold weightedOf
      rw [show tier500Of row r = r from by simp [tier500Of, h5, pickTier]]
    · unfold tiersOf
      rw [h5]
      simp [truthyRates]
  · intro now row r tdu h2
    refine ⟨?_, ?_, ?_⟩
    · show tier2000Of row r = r
      simp [tier2000Of, h2, pickTier]
    · show weightedOf row r = _
      unfold weightedOf
      rw [show tier2000Of row r = r from by simp [tier2000Of, h2, pickTier]]
    · unfold tiersOf
      rw [h2]
      simp [truthyRates]

/-- C9 witness: the zero-as-absent behaviour at a concrete row whose
kwh500 cell is "0". -/
theorem spec_c9_witness :
    (mkPlan ("") c9row (mkQ 10 1) ("ONCOR")).rate_kwh500 = mkQ 10 1 ∧
    (mkPlan ("") c9row (mkQ 10 1) ("ONCOR")).weighted_rate =
      round2 (mkQ 10 1 * mkQ 2 10 + mkQ 10 1 * mkQ 5 10 +
        tier2000Of c9row (mkQ 10 1) * mkQ 3 10) ∧
    tiersOf c9row (mkQ 10 1) = truthyRates [none, some (mkQ 10 1), rate2000Of c9row] :=
  spec_c9.2.2.2.1 ("") c9row (mkQ 10 1) ("ONCOR") (by decide)

lemma mem_ite_tag {c : Prop} [Decidable c] {a b : String} :
    (a ∈ (if c then [b] else [])) ↔ (c ∧ a = b) := by
  split
  · simp_all
  · simp_all

lemma mem_min_usage_warnings (row : RawRecord) (r : Q) :
    ("has_min_usage_fee" ∈ warningsOf row r) ↔ muOf row = true := by
  unfold warningsOf
  simp only [List.mem_append, mem_ite_tag]
  constructor
  · intro h
    rcases h with (((((((((((h | h) | h) | h) | h) | h) | h) | h) | h) | h) | h) | h)
    · exact absurd h.2 (by decide)
    · exact absurd h.2 (by decide)
    · exact absurd h.2 (by decide)
    · exact h.1
    · exact absurd h.2 (by decide)
    · exact absurd h.2 (by decide)
    · exact absurd h.2 (by decide)
    · exact absurd h.2 (by decide)
    · exact absurd h.2 (by decide)
    · exact absurd h.2 (by decide)
    · exact absurd h.2 (by decide)
    · exact absurd h.2 (by decide)
  · intro h
    exact Or.inl (Or.inl (Or.inl (Or.inl (Or.inl (Or.inl (Or.inl (Or.inl
      (Or.inr ⟨h, trivial⟩))))))))

lemma transparencyScore_mu_split :
    ∀ g reb bc mu pr tou fx pre : Bool,
      transparencyScore g reb bc mu pr tou fx pre =
        max 0 (100 - (((if g then 25 else 0) + (if reb then 20 else 0) +
          (if bc then 10 else 0) + (if pr then 10 else 0) + (if tou then 10 else 0) +
          (if fx then 0 else 15) + (if pre then 10 else 0) : Int) +
          (if mu then 15 else 0))) := by
  decide

/-- C10: on every emitted plan, has_min_usage_fee is exactly the
disjunction of the fine-print pattern hit and the boolean reading of the
MinUsageFeesCredits column; the same disjunction gates the
has_min_usage_fee warning tag and the 15-point score deduction; and a
record whose MinUsageFeesCredits cell is the literal "TRUE" gets
has_min_usage_fee = true although no minimum-usage phrase matches. -/
theorem spec_c10 :
    (∀ now rows p, p ∈ (parse_csv now rows).plans →
      ∃ row r tdu, p = mkPlan now row r tdu ∧
        p.has_min_usage_fee = ((fineOf row).has_min_usage_fee || minUsageFlagOf row) ∧
        (("has_min_usage_fee" ∈ p.warnings) ↔ p.has_min_usage_fee = true) ∧
        p.transparency_score =
          max 0 (100 - (otherPenaltyOf row r + (if p.has_min_usage_fee then 15 else 0)))) ∧
    ((parse_csv ("") [c10row]).plans.head!.has_min_usage_fee = true ∧
     (fineOf c10row).has_min_usage_fee = false ∧ minUsageFlagOf c10row = true) := by
  constructor
  · intro now rows p hp
    obtain ⟨row, r, tdu, _, rfl⟩ := mem_plans_parse_csv hp
    obtain ⟨_, hsc, _, _, _, hmu, _, _, _, _, hw⟩ := mkPlan_fields now row r tdu
    refine ⟨row, r, tdu, rfl, ?_, ?_, ?_⟩
    · rw [hmu]; rfl
    · rw [hw, hmu]; exact mem_min_usage_warnings row r
    · rw [hsc, hmu]
      unfold scoreOf otherPenaltyOf muOf
      exact transparencyScore_mu_split (gotchaOf row r) (fineOf row).has_rebate
        (fineOf row).has_base_charge ((fineOf row).has_min_usage_fee || minUsageFlagOf row)
        (isPromotionOf row) (isTouOf row) (isFixedOf row) (isPrepaidOf row)
  · exact ⟨by decide, by decide, by decide⟩

/-- C10 witness: the wiring facts instantiated at the concrete TRUE-flag
row. -/
theorem spec_c10_witness :
    ∃ row r tdu, (parse_csv ("") [c10row]).plans.head! = mkPlan ("") row r tdu ∧
      (parse_csv ("") [c10row]).plans.head!.has_min_usage_fee =
        ((fineOf row).has_min_usage_fee || minUsageFlagOf row) ∧
      (("has_min_usage_fee" ∈ (parse_csv ("") [c10row]).plans.head!.warnings) ↔
        (parse_csv ("") [c10row]).plans.head!.has_min_usage_fee = true) ∧
      (parse_csv ("") [c10row]).plans.head!.transparency_score =
        max 0 (100 - (otherPenaltyOf row r +
          (if (parse_csv ("") [c10row]).plans.head!.has_min_usage_fee then 15 else 0))) :=
  spec_c10.1 ("") [c10row] (parse_csv ("") [c10row]).plans.head! (by decide)

lemma keyOf_congr {p q : Plan} (h : tupleEq p q) : keyOf p = keyOf q := by
  obtain ⟨h1, h2, h3, h4⟩ := h
  unfold keyOf
  rw [h1, h2, h3, h4]

lemma keyOf_mkPlan (now : String) (row : RawRecord) (r : Q) (tdu : String) :
    keyOf (mkPlan now row r tdu) = rowKey row r tdu := rfl

lemma seenInv_processRow {now : String} {st : ParseState} {row : RawRecord}
    (h : SeenInv st) : SeenInv (processRow now st row) := by
  rcases processRow_cases now st row with ⟨hp, hs⟩ | ⟨r, tdu, _, hnot, heq⟩
  · exact ⟨fun q hq => by rw [hs]; exact h.1 q (by rw [← hp]; exact hq), by
      rw [hp]  -- hmm rewrite plans in Pairwise
      exact h.2⟩
  · rw [heq]
    constructor
    · intro q hq
      rcases List.mem_append.mp hq with hin | hin
      · exact List.mem_cons_of_mem _ (h.1 q hin)
      · rw [List.mem_singleton.mp hin, keyOf_mkPlan]
        exact List.mem_cons_self _ _
    · refine List.pairwise_append.mpr ⟨h.2, List.pairwise_singleton _ _, ?_⟩
      intro a ha b hb
      rw [List.mem_singleton.mp hb, keyOf_mkPlan]
      intro hkey
      exact hnot (hkey ▸ h.1 a ha)

lemma seenInv_parse_csv (now : String) (rows : List RawRecord) :
    SeenInv (parse_csv now rows) := by
  suffices hgen : ∀ st, SeenInv st → SeenInv (rows.foldl (processRow now) st) from
    hgen initState ⟨by intro q hq; simp [initState] at hq, by simp [initState]⟩
  induction rows with
  | nil => intro st hst; exact hst
  | cons row rest ih => intro st hst; exact ih (processRow now st row) (seenInv_processRow hst)

lemma processRow_dup {now : String} {st : ParseState} {row : RawRecord} {r : Q} {tdu : String}
    (hok : RowOk row r tdu) (hseen : rowKey row r tdu ∈ st.seen) :
    processRow now st row = addDuplicate st := by
  obtain ⟨hpv, hpn, hr, hlow, hhigh, hterm, htdu, hne⟩ := hok
  unfold processRow
  rw [if_neg (not_or.mpr ⟨hpv, hpn⟩)]
  simp only [hr, if_neg hlow, if_neg hhigh, if_neg hterm, htdu, if_neg hne, if_pos hseen]

lemma processRow_accept {now : String} {st : ParseState} {row : RawRecord} {r : Q} {tdu : String}
    (hok : RowOk row r tdu) (hnot : rowKey row r tdu ∉ st.seen) :
    processRow now st row =
      { plans := st.plans ++ [mkPlan now row r tdu]
        rejected := st.rejected
        gotcha_count := st.gotcha_count + (if gotchaOf row r then 1 else 0)
        rebate_count := st.rebate_count + (if (fineOf row).has_rebate then 1 else 0)
        seen := rowKey row r tdu :: st.seen } := by
  obtain ⟨hpv, hpn, hr, hlow, hhigh, hterm, htdu, hne⟩ := hok
  unfold processRow
  rw [if_neg (not_or.mpr ⟨hpv, hpn⟩)]
  simp only [hr, if_neg hlow, if_neg hhigh, if_neg hterm, htdu, if_neg hne, if_neg hnot]

/-- C4 (amended): no two emitted plans of one run share the composite
identity (provider, plan_name, tdu, rate_1000); a row that passes all
earlier validation checks and matches an already-emitted plan on that
identity is rejected and counted as duplicate, while the first
occurrence is kept (appended to the output).  A later row identical in
the identity can instead be consumed by an earlier check (for example a
short term) and counted in that bucket rather than as duplicate. -/
theorem spec_c4 :
    (∀ now rows, (parse_csv now rows).plans.Pairwise (fun p q => ¬ tupleEq p q)) ∧
    (∀ now st row r tdu, RowOk row r tdu →
      (∀ q ∈ st.plans, keyOf q ∈ st.seen) →
      (∃ q ∈ st.plans, tupleEq q (mkPlan now row r tdu)) →
      processRow now st row = addDuplicate st) ∧
    (∀ now st row r tdu, RowOk row r tdu → rowKey row r tdu ∉ st.seen →
      processRow now st row =
        { plans := st.plans ++ [mkPlan now row r tdu]
          rejected := st.rejected
          gotcha_count := st.gotcha_count + (if gotchaOf row r then 1 else 0)
          rebate_count := st.rebate_count + (if (fineOf row).has_rebate then 1 else 0)
          seen := rowKey row r tdu :: st.seen }) := by
  refine ⟨?_, ?_, ?_⟩
  · intro now rows
    exact (seenInv_parse_csv now rows).2.imp (fun hne htup => hne (keyOf_congr htup))
  · intro now st row r tdu hok hinv hex
    obtain ⟨q, hq, htup⟩ := hex
    have hkey : keyOf q = rowKey row r tdu := by
      rw [keyOf_congr htup, keyOf_mkPlan]
    exact processRow_dup hok (hkey ▸ hinv q hq)
  · intro now st row r tdu hok hnot
    exact processRow_accept hok hnot

/-- C4, counterexample to the claim as stated: the two rows agree on the
composite identity (provider, plan_name, tdu, rate_1000), the first is
kept, but the second is rejected by the earlier term check and counted
as short_term, not as duplicate — so a later identical-identity row is
not always counted under 'duplicate'. -/
theorem spec_c4_cex :
    (providerOf c4row2 = providerOf c4row1 ∧ planNameOf c4row2 = planNameOf c4row1 ∧
     normalize_tdu (tduRawOf c4row2) = normalize_tdu (tduRawOf c4row1) ∧
     rate1000Of c4row2 = rate1000Of c4row1) ∧
    (parse_csv ("") [c4row1, c4row2]).plans.length = 1 ∧
    (parse_csv ("") [c4row1, c4row2]).rejected.duplicate = 0 ∧
    (parse_csv ("") [c4row1, c4row2]).rejected.short_term = 1 := by
  decide

/-- C4 witness: a full duplicate of an accepted row is rejected as
duplicate, and a fresh row is appended, at concrete inputs. -/
theorem spec_c4_witness :
    processRow ("") (parse_csv ("") [c4row1]) c4row1 = addDuplicate (parse_csv ("") [c4row1]) ∧
    processRow ("") initState c4row1 =
      { plans := initState.plans ++ [mkPlan ("") c4row1 (mkQ 10 1) ("ONCOR")]
        rejected := initState.rejected
        gotcha_count := initState.gotcha_count + (if gotchaOf c4row1 (mkQ 10 1) then 1 else 0)
        rebate_count := initState.rebate_count + (if (fineOf c4row1).has_rebate then 1 else 0)
        seen := rowKey c4row1 (mkQ 10 1) ("ONCOR") :: initState.seen } :=
  ⟨spec_c4.2.1 ("") (parse_csv ("") [c4row1]) c4row1 (mkQ 10 1) ("ONCOR")
     (by decide) (by decide) (by decide),
   spec_c4.2.2 ("") initState c4row1 (mkQ 10 1) ("ONCOR") (by decide) (by decide)⟩

lemma stripEq_processRow {t₁ t₂ : String} {st₁ st₂ : ParseState} (row : RawRecord)
    (h : StripEq st₁ st₂) : StripEq (processRow t₁ st₁ row) (processRow t₂ st₂ row) := by
  obtain ⟨hp, hr, hg, hb, hs⟩ := h
  unfold processRow
  rw [hs]
  by_cases h1 : providerOf row = "" ∨ planNameOf row = ""
  · simp only [if_pos h1]
    exact ⟨by simp only [addNoData, hp], by simp only [addNoData]; rw [hr],
      by simp only [addNoData, hg], by simp only [addNoData, hb], by simp only [addNoData, hs]⟩
  simp only [if_neg h1]
  cases hrate : rate1000Of row with
  | none =>
    exact ⟨by simp only [addNoData, hp], by simp only [addNoData]; rw [hr],
      by simp only [addNoData, hg], by simp only [addNoData, hb], by simp only [addNoData, hs]⟩
  | some r =>
    simp only []
    by_cases h2 : r < MIN_RATE
    · simp only [if_pos h2]
      exact ⟨by simp only [addLowRate, hp], by simp only [addLowRate]; rw [hr],
        by simp only [addLowRate, hg], by simp only [addLowRate, hb], by simp only [addLowRate, hs]⟩
    simp only [if_neg h2]
    by_cases h3 : MAX_RATE < r
    · simp only [if_pos h3]
      exact ⟨by simp only [addHighRate, hp], by simp only [addHighRate]; rw [hr],
        by simp only [addHighRate, hg], by simp only [addHighRate, hb],
        by simp only [addHighRate, hs]⟩
    simp only [if_neg h3]
    by_cases h4 : termOf row < MIN_TERM
    · simp only [if_pos h4]
      exact ⟨by simp only [addShortTerm, hp], by simp only [addShortTerm]; rw [hr],
        by simp only [addShortTerm, hg], by simp only [addShortTerm, hb],
        by simp only [addShortTerm, hs]⟩
    simp only [if_neg h4]
    cases ht : normalize_tdu (tduRawOf row) with
    | none =>
      exact ⟨by simp only [addNoData, hp], by simp only [addNoData]; rw [hr],
        by simp only [addNoData, hg], by simp only [addNoData, hb], by simp only [addNoData, hs]⟩
    | some tdu =>
      simp only []
      by_cases h5 : tdu = ""
      · simp only [if_pos h5]
        exact ⟨by simp only [addNoData, hp], by simp only [addNoData]; rw [hr],
          by simp only [addNoData, hg], by simp only [addNoData, hb], by simp only [addNoData, hs]⟩
      simp only [if_neg h5]
      by_cases h6 : rowKey row r tdu ∈ st₂.seen
      · simp only [if_pos h6]
        exact ⟨by simp only [addDuplicate, hp], by simp only [addDuplicate]; rw [hr],
          by simp only [addDuplicate, hg], by simp only [addDuplicate, hb],
          by simp only [addDuplicate, hs]⟩
      simp only [if_neg h6]
      refine ⟨?_, hr, by simp only [hg], by simp only [hb], rfl⟩
      show (st₁.plans ++ [mkPlan t₁ row r tdu]).map stripStamp
        = (st₂.plans ++ [mkPlan t₂ row r tdu]).map stripStamp
      rw [List.map_append, List.map_append, hp]
      simp only [List.map_cons, List.map_nil, strip_mkPlan]

lemma stripEq_foldl (rows : List RawRecord) :
    ∀ {t₁ t₂ : String} {st₁ st₂ : ParseState}, StripEq st₁ st₂ →
      StripEq (rows.foldl (processRow t₁) st₁) (rows.foldl (processRow t₂) st₂) := by
  induction rows with
  | nil => intro t₁ t₂ st₁ st₂ h; exact h
  | cons row rest ih => intro t₁ t₂ st₁ st₂ h; exact ih (stripEq_processRow row h)

/-- C8: the record-processing pipeline is deterministic — two runs over
the same rows in the same order, differing only in the processing
timestamp, produce identical plan sequences in every field except
updated_at, and identical rejection tallies, counters and dedup sets. -/
theorem spec_c8 (t₁ t₂ : String) (rows : List RawRecord) :
    (parse_csv t₁ rows).plans.map stripStamp = (parse_csv t₂ rows).plans.map stripStamp ∧
    (parse_csv t₁ rows).rejected = (parse_csv t₂ rows).rejected ∧
    (parse_csv t₁ rows).gotcha_count = (parse_csv t₂ rows).gotcha_count ∧
    (parse_csv t₁ rows).rebate_count = (parse_csv t₂ rows).rebate_count ∧
    (parse_csv t₁ rows).seen = (parse_csv t₂ rows).seen :=
  stripEq_foldl rows ⟨rfl, rfl, rfl, rfl, rfl⟩
